import Mathlib

/-!
Verification of the normalize-then-decode pipeline of
`src/examples/parse_user.rs` (clerk-rs worked example).

The Rust program parses a JSON document into a generic `serde_json::Value`
tree, mutates it in place (removing the denylisted top-level field
`create_organizations_limit` and repairing `verification` sub-objects in the
`email_addresses`, `saml_accounts` and `enterprise_accounts` arrays), then
serializes and attempts a strict decode into the `User` model, reporting a
field inventory when that decode fails.

We embed the document tree as an inductive `Json` type whose objects are
ordered association lists, and translate each in-place mutation into a pure
rewriting function.  `serde_json`'s object maps hold unique keys; our
operations act uniformly on every entry carrying the key, which coincides
with the Rust behaviour on any tree `serde_json` can produce.  The key
order inside an object (sorted for `serde_json`'s default `BTreeMap`) is
never observed by the properties below, so inserted entries are appended.
-/

namespace ParseUser

/-- Generic JSON document tree, mirroring `serde_json::Value`:
null / bool / number / string / array / object. -/
inductive Json where
  | null : Json
  | bool (b : Bool) : Json
  | num (n : Int) : Json
  | str (s : String) : Json
  | arr (elems : List Json) : Json
  | obj (entries : List (String × Json)) : Json

/-- Key lookup in an object entry list (`Map::get`): first entry wins. -/
def getKey : List (String × Json) → String → Option Json
  | [], _ => none
  | (a, v) :: rest, k => if a = k then some v else getKey rest k

/-- Key removal (`Map::remove`): drops every entry carrying the key. -/
def removeKey : List (String × Json) → String → List (String × Json)
  | [], _ => []
  | (a, v) :: rest, k =>
      if a = k then removeKey rest k else (a, v) :: removeKey rest k

/-- Key membership (`Map::contains_key`). -/
def containsKey : List (String × Json) → String → Bool
  | [], _ => false
  | (a, _) :: rest, k => if a = k then true else containsKey rest k

/-- Replace the value stored under a key, keeping entry positions
(the in-place `get_mut` mutation of the found entry). -/
def setKey : List (String × Json) → String → Json → List (String × Json)
  | [], _, _ => []
  | (a, v) :: rest, k, w =>
      if a = k then (a, w) :: setKey rest k w else (a, v) :: setKey rest k w

/-- `Value::get` on a document: key lookup on objects, `none` otherwise. -/
def Json.get : Json → String → Option Json
  | .obj kvs, k => getKey kvs k
  | _, _ => none

/-- `Value::as_str`: the string payload when the value is a string. -/
def Json.asStr : Json → Option String
  | .str s => some s
  | _ => none

/-- Apply `f` to every element when the value is an array
(`as_array_mut` followed by the `for` loop); other values are untouched. -/
def mapArr (f : Json → Json) : Json → Json
  | .arr xs => .arr (xs.map f)
  | v => v

/-- Transform the array stored under key `k` by mapping `f` over its
elements (`obj.get_mut(k).and_then(as_array_mut)` + per-record loop);
entries under other keys, and a `k` entry that is not an array, are kept. -/
def mapArrayAt : List (String × Json) → String → (Json → Json) → List (String × Json)
  | [], _, _ => []
  | (a, v) :: rest, k, f =>
      if a = k then (a, mapArr f v) :: mapArrayAt rest k f
      else (a, v) :: mapArrayAt rest k f

/-- Repair of one `email_addresses` record (lines 24–33 of
`parse_user.rs`): when the record owns a `verification` object whose
`object` tag reads as the string `"verification_saml"`, remove
`external_verification_redirect_url` from that verification object. -/
def fixEmailRecord (email : Json) : Json :=
  match email with
  | .obj kvs =>
    match getKey kvs "verification" with
    | some (.obj vkvs) =>
      if (getKey vkvs "object").bind Json.asStr = some "verification_saml" then
        .obj (setKey kvs "verification"
          (.obj (removeKey vkvs "external_verification_redirect_url")))
      else .obj kvs
    | _ => .obj kvs
  | v => v

/-- Repair of one `saml_accounts` / `enterprise_accounts` record
(lines 38–45 and 51–57 of `parse_user.rs`): when the record owns a
`verification` object lacking `external_verification_redirect_url`,
insert that key with value null. -/
def fixAccountRecord (acct : Json) : Json :=
  match acct with
  | .obj kvs =>
    match getKey kvs "verification" with
    | some (.obj vkvs) =>
      if containsKey vkvs "external_verification_redirect_url" then .obj kvs
      else .obj (setKey kvs "verification"
        (.obj (vkvs ++ [("external_verification_redirect_url", Json.null)])))
    | _ => .obj kvs
  | v => v

/-- The normalization pass (lines 18–60 of `parse_user.rs`): on a
top-level object, strip `create_organizations_limit`, then repair the
records of the three container arrays in source order; any other
top-level value is left untouched. -/
def normalize (d : Json) : Json :=
  match d with
  | .obj kvs =>
    .obj (mapArrayAt
           (mapArrayAt
             (mapArrayAt (removeKey kvs "create_organizations_limit")
               "email_addresses" fixEmailRecord)
             "saml_accounts" fixAccountRecord)
           "enterprise_accounts" fixAccountRecord)
  | v => v

/-- Top-level keys of a document, in entry order: what the failure
diagnostic of lines 90–97 prints (`as_object` + key iteration prints
nothing when the value is not an object). -/
def topKeys : Json → List String
  | .obj kvs => kvs.map Prod.fst
  | _ => []

/-- Fatal errors of the run: the `?`-propagated failures of
`fs::read_to_string` (line 7) and of the generic JSON parse (line 12). -/
inductive FatalError where
  | acquisition : FatalError
  | malformed : FatalError

/-- Outcome of the decode-and-report phase: either a decoded entity, or a
failure carrying the "fields present" inventory printed by lines 90–97. -/
inductive DecodeOutcome (User : Type) where
  | decoded (u : User) : DecodeOutcome User
  | failed (fieldsPresent : List String) : DecodeOutcome User

/-- The external JSON text collaborator: a serializer
(`serde_json::to_string_pretty` on a `Value`, total) and a generic parser
(`serde_json::from_str::<Value>`).  The spec's contract for it is that
serialization is lossless for values and re-parsable. -/
structure JsonCodec (Text : Type) where
  serialize : Json → Text
  parse : Text → Option Json

/-- A codec is lossless when re-parsing a serialized document returns that
document — the round-trip contract `serde_json` provides for `Value`. -/
def JsonCodec.Lossless {Text : Type} (codec : JsonCodec Text) : Prop :=
  ∀ d : Json, codec.parse (codec.serialize d) = some d

/-- Control flow of `main` (lines 5–102): acquisition failure and generic
parse failure abort; otherwise normalize, serialize, strict-decode, and on
decode failure re-parse the serialized text and collect the top-level keys
(the `Ok(value)` / `as_object` guards of lines 90–91 yield an empty
inventory when either guard fails).  The strict `User` decoder is the
opaque external collaborator `decodeUser`. -/
def runPipeline {Text User : Type} (codec : JsonCodec Text)
    (decodeUser : Text → Option User) (readResult : Option Text) :
    Except FatalError (DecodeOutcome User) :=
  match readResult with
  | none => .error .acquisition
  | some text =>
    match codec.parse text with
    | none => .error .malformed
    | some doc =>
      let cleanedText := codec.serialize (normalize doc)
      match decodeUser cleanedText with
      | some u => .ok (.decoded u)
      | none =>
        .ok (.failed (match codec.parse cleanedText with
          | some v => topKeys v
          | none => []))

/-- The identity codec: text is the tree itself.  It is trivially
lossless and instantiates the collaborator in concrete runs. -/
def idCodec : JsonCodec Json where
  serialize := id
  parse := some

/-- A strict decoder that always fails, exercising the failure branch. -/
def alwaysFail : Json → Option Unit := fun _ => none

/-! ### Association-list lemmas -/

theorem getKey_removeKey_ne (l : List (String × Json)) {k k' : String}
    (h : k ≠ k') : getKey (removeKey l k') k = getKey l k := by
  induction l with
  | nil => rfl
  | cons p rest ih =>
    obtain ⟨a, v⟩ := p
    by_cases ha : a = k'
    · simp [removeKey, getKey, ha, Ne.symm h, ih]
    · by_cases hak : a = k
      · simp [removeKey, getKey, ha, hak, h]
      · simp [removeKey, getKey, ha, hak, ih]

theorem getKey_removeKey_self (l : List (String × Json)) (k : String) :
    getKey (removeKey l k) k = none := by
  induction l with
  | nil => rfl
  | cons p rest ih =>
    obtain ⟨a, v⟩ := p
    by_cases ha : a = k
    · simp [removeKey, ha, ih]
    · simp [removeKey, getKey, ha, ih]

theorem removeKey_removeKey (l : List (String × Json)) (k : String) :
    removeKey (removeKey l k) k = removeKey l k := by
  induction l with
  | nil => rfl
  | cons p rest ih =>
    obtain ⟨a, v⟩ := p
    by_cases ha : a = k
    · simp [removeKey, ha, ih]
    · simp [removeKey, ha, ih]

theorem removeKey_of_not_contains (l : List (String × Json)) {k : String}
    (h : containsKey l k = false) : removeKey l k = l := by
  induction l with
  | nil => rfl
  | cons p rest ih =>
    obtain ⟨a, v⟩ := p
    by_cases ha : a = k
    · simp [containsKey, ha] at h
    · simp [containsKey, ha] at h
      simp [removeKey, ha, ih h]

theorem containsKey_of_getKey (l : List (String × Json)) {k : String}
    {v : Json} (h : getKey l k = some v) : containsKey l k = true := by
  induction l with
  | nil => simp [getKey] at h
  | cons p rest ih =>
    obtain ⟨a, w⟩ := p
    by_cases ha : a = k
    · simp [containsKey, ha]
    · simp [getKey, ha] at h
      simp [containsKey, ha, ih h]

theorem getKey_setKey_self (l : List (String × Json)) {k : String}
    {w : Json} (hmem : getKey l k = some w) (v : Json) :
    getKey (setKey l k v) k = some v := by
  induction l with
  | nil => simp [getKey] at hmem
  | cons p rest ih =>
    obtain ⟨a, u⟩ := p
    by_cases ha : a = k
    · simp [setKey, getKey, ha]
    · simp [getKey, ha] at hmem
      simp [setKey, getKey, ha, ih hmem]

theorem getKey_setKey_ne (l : List (String × Json)) {k k' : String}
    (h : k' ≠ k) (v : Json) : getKey (setKey l k v) k' = getKey l k' := by
  induction l with
  | nil => rfl
  | cons p rest ih =>
    obtain ⟨a, u⟩ := p
    by_cases ha : a = k
    · simp [setKey, getKey, ha, Ne.symm h, ih]
    · by_cases ha' : a = k'
      · simp [setKey, getKey, ha, ha', h]
      · simp [setKey, getKey, ha, ha', ih]

theorem setKey_setKey (l : List (String × Json)) (k : String) (v w : Json) :
    setKey (setKey l k v) k w = setKey l k w := by
  induction l with
  | nil => rfl
  | cons p rest ih =>
    obtain ⟨a, u⟩ := p
    by_cases ha : a = k
    · simp [setKey, ha, ih]
    · simp [setKey, ha, ih]

theorem getKey_append_ne (l : List (String × Json)) {k u : String}
    (h : k ≠ u) (v : Json) : getKey (l ++ [(u, v)]) k = getKey l k := by
  induction l with
  | nil => simp [getKey, h.symm]
  | cons p rest ih =>
    obtain ⟨a, w⟩ := p
    by_cases ha : a = k
    · simp [getKey, ha]
    · simp [getKey, ha, ih]

theorem getKey_append_self (l : List (String × Json)) {u : String}
    (h : containsKey l u = false) (v : Json) :
    getKey (l ++ [(u, v)]) u = some v := by
  induction l with
  | nil => simp [getKey]
  | cons p rest ih =>
    obtain ⟨a, w⟩ := p
    by_cases ha : a = u
    · simp [containsKey, ha] at h
    · simp [containsKey, ha] at h
      simp [getKey, ha, ih h]

theorem containsKey_append_self (l : List (String × Json)) (u : String)
    (v : Json) : containsKey (l ++ [(u, v)]) u = true := by
  induction l with
  | nil => simp [containsKey]
  | cons p rest ih =>
    obtain ⟨a, w⟩ := p
    by_cases ha : a = u
    · simp [containsKey, ha]
    · simp [containsKey, ha, ih]

theorem getKey_mapArrayAt_ne (l : List (String × Json)) {k k' : String}
    (h : k' ≠ k) (f : Json → Json) :
    getKey (mapArrayAt l k f) k' = getKey l k' := by
  induction l with
  | nil => rfl
  | cons p rest ih =>
    obtain ⟨a, v⟩ := p
    by_cases ha : a = k
    · simp [mapArrayAt, getKey, ha, Ne.symm h, ih]
    · by_cases ha' : a = k'
      · simp [mapArrayAt, getKey, ha, ha', h]
      · simp [mapArrayAt, getKey, ha, ha', ih]

theorem getKey_mapArrayAt_self (l : List (String × Json)) (k : String)
    (f : Json → Json) :
    getKey (mapArrayAt l k f) k = Option.map (mapArr f) (getKey l k) := by
  induction l with
  | nil => rfl
  | cons p rest ih =>
    obtain ⟨a, v⟩ := p
    by_cases ha : a = k
    · simp [mapArrayAt, getKey, ha]
    · simp [mapArrayAt, getKey, ha, ih]

theorem mapArrayAt_removeKey (l : List (String × Json)) (k k' : String)
    (f : Json → Json) :
    removeKey (mapArrayAt l k f) k' = mapArrayAt (removeKey l k') k f := by
  induction l with
  | nil => rfl
  | cons p rest ih =>
    obtain ⟨a, v⟩ := p
    by_cases ha : a = k
    · by_cases ha' : a = k'
      · subst ha
        subst ha'
        simp [mapArrayAt, removeKey, ih]
      · have hkk : ¬ k = k' := fun hh => ha' (ha.trans hh)
        simp [mapArrayAt, removeKey, ha, ha', hkk, ih]
    · by_cases ha' : a = k'
      · have hk : ¬ k' = k := fun hh => ha (ha'.trans hh)
        simp [mapArrayAt, removeKey, ha, ha', hk, ih]
      · simp [mapArrayAt, removeKey, ha, ha', ih]

theorem mapArrayAt_comm (l : List (String × Json)) {k k' : String}
    (h : k ≠ k') (f g : Json → Json) :
    mapArrayAt (mapArrayAt l k f) k' g = mapArrayAt (mapArrayAt l k' g) k f := by
  induction l with
  | nil => rfl
  | cons p rest ih =>
    obtain ⟨a, v⟩ := p
    by_cases ha : a = k
    · simp [mapArrayAt, ha, Ne.symm h, h, ih]
    · by_cases ha' : a = k'
      · simp [mapArrayAt, ha, ha', h, Ne.symm h, ih]
      · simp [mapArrayAt, ha, ha', ih]

theorem mapArr_idem {f : Json → Json} (hf : ∀ x, f (f x) = f x) (v : Json) :
    mapArr f (mapArr f v) = mapArr f v := by
  cases v with
  | arr xs =>
    show Json.arr ((xs.map f).map f) = Json.arr (xs.map f)
    congr 1
    induction xs with
    | nil => rfl
    | cons x rest ih =>
      simp only [List.map_cons]
      rw [hf x, ih]
  | null => rfl
  | bool b => rfl
  | num n => rfl
  | str s => rfl
  | obj kvs => rfl

theorem mapArrayAt_idem (l : List (String × Json)) (k : String)
    {f : Json → Json} (hf : ∀ x, f (f x) = f x) :
    mapArrayAt (mapArrayAt l k f) k f = mapArrayAt l k f := by
  induction l with
  | nil => rfl
  | cons p rest ih =>
    obtain ⟨a, v⟩ := p
    by_cases ha : a = k
    · simp [mapArrayAt, ha, mapArr_idem hf, ih]
    · simp [mapArrayAt, ha, ih]

/-! ### Idempotence of the record repairs -/

theorem fixEmailRecord_idem (r : Json) :
    fixEmailRecord (fixEmailRecord r) = fixEmailRecord r := by
  cases r with
  | obj kvs =>
    cases hver : getKey kvs "verification" with
    | none => simp [fixEmailRecord, hver]
    | some v =>
      cases v with
      | obj vkvs =>
        by_cases htag :
            (getKey vkvs "object").bind Json.asStr = some "verification_saml"
        · have h1 : fixEmailRecord (.obj kvs) =
              .obj (setKey kvs "verification"
                (.obj (removeKey vkvs "external_verification_redirect_url"))) := by
            simp [fixEmailRecord, hver, htag]
          have hget : getKey (setKey kvs "verification"
              (.obj (removeKey vkvs "external_verification_redirect_url")))
              "verification" =
              some (.obj (removeKey vkvs "external_verification_redirect_url")) :=
            getKey_setKey_self kvs hver _
          have htag2 : (getKey
              (removeKey vkvs "external_verification_redirect_url")
              "object").bind Json.asStr = some "verification_saml" := by
            rw [getKey_removeKey_ne vkvs (by decide)]
            exact htag
          rw [h1]
          simp only [fixEmailRecord, hget, htag2, if_pos]
          rw [removeKey_removeKey, setKey_setKey]
        · simp [fixEmailRecord, hver, htag]
      | null => simp [fixEmailRecord, hver]
      | bool b => simp [fixEmailRecord, hver]
      | num n => simp [fixEmailRecord, hver]
      | str s => simp [fixEmailRecord, hver]
      | arr xs => simp [fixEmailRecord, hver]
  | null => rfl
  | bool b => rfl
  | num n => rfl
  | str s => rfl
  | arr xs => rfl

theorem fixAccountRecord_idem (r : Json) :
    fixAccountRecord (fixAccountRecord r) = fixAccountRecord r := by
  cases r with
  | obj kvs =>
    cases hver : getKey kvs "verification" with
    | none => simp [fixAccountRecord, hver]
    | some v =>
      cases v with
      | obj vkvs =>
        by_cases hurl : containsKey vkvs "external_verification_redirect_url"
        · simp [fixAccountRecord, hver, hurl]
        · have h1 : fixAccountRecord (.obj kvs) =
              .obj (setKey kvs "verification"
                (.obj (vkvs ++
                  [("external_verification_redirect_url", Json.null)]))) := by
            simp [fixAccountRecord, hver, hurl]
          have hget : getKey (setKey kvs "verification"
              (.obj (vkvs ++ [("external_verification_redirect_url", Json.null)])))
              "verification" =
              some (.obj (vkvs ++
                [("external_verification_redirect_url", Json.null)])) :=
            getKey_setKey_self kvs hver _
          have hcon : containsKey
              (vkvs ++ [("external_verification_redirect_url", Json.null)])
              "external_verification_redirect_url" = true :=
            containsKey_append_self vkvs _ _
          rw [h1]
          simp [fixAccountRecord, hget, hcon]
      | null => simp [fixAccountRecord, hver]
      | bool b => simp [fixAccountRecord, hver]
      | num n => simp [fixAccountRecord, hver]
      | str s => simp [fixAccountRecord, hver]
      | arr xs => simp [fixAccountRecord, hver]
  | null => rfl
  | bool b => rfl
  | num n => rfl
  | str s => rfl
  | arr xs => rfl

/-! ### Lookup through the normalization pipeline -/

theorem normalize_obj_def (kvs : List (String × Json)) :
    normalize (.obj kvs) =
      .obj (mapArrayAt
             (mapArrayAt
               (mapArrayAt (removeKey kvs "create_organizations_limit")
                 "email_addresses" fixEmailRecord)
               "saml_accounts" fixAccountRecord)
             "enterprise_accounts" fixAccountRecord) := rfl

theorem normalize_get_other (kvs : List (String × Json)) {k : String}
    (h1 : k ≠ "create_organizations_limit") (h2 : k ≠ "email_addresses")
    (h3 : k ≠ "saml_accounts") (h4 : k ≠ "enterprise_accounts") :
    (normalize (.obj kvs)).get k = getKey kvs k := by
  rw [normalize_obj_def]
  show getKey _ k = getKey kvs k
  rw [getKey_mapArrayAt_ne _ h4, getKey_mapArrayAt_ne _ h3,
    getKey_mapArrayAt_ne _ h2, getKey_removeKey_ne _ h1]

theorem normalize_get_email (kvs : List (String × Json)) :
    (normalize (.obj kvs)).get "email_addresses" =
      Option.map (mapArr fixEmailRecord) (getKey kvs "email_addresses") := by
  rw [normalize_obj_def]
  show getKey _ _ = _
  rw [getKey_mapArrayAt_ne _ (by decide), getKey_mapArrayAt_ne _ (by decide),
    getKey_mapArrayAt_self, getKey_removeKey_ne _ (by decide)]

theorem normalize_get_saml (kvs : List (String × Json)) :
    (normalize (.obj kvs)).get "saml_accounts" =
      Option.map (mapArr fixAccountRecord) (getKey kvs "saml_accounts") := by
  rw [normalize_obj_def]
  show getKey _ _ = _
  rw [getKey_mapArrayAt_ne _ (by decide), getKey_mapArrayAt_self,
    getKey_mapArrayAt_ne _ (by decide), getKey_removeKey_ne _ (by decide)]

theorem normalize_get_enterprise (kvs : List (String × Json)) :
    (normalize (.obj kvs)).get "enterprise_accounts" =
      Option.map (mapArr fixAccountRecord) (getKey kvs "enterprise_accounts") := by
  rw [normalize_obj_def]
  show getKey _ _ = _
  rw [getKey_mapArrayAt_self, getKey_mapArrayAt_ne _ (by decide),
    getKey_mapArrayAt_ne _ (by decide), getKey_removeKey_ne _ (by decide)]

theorem normalize_get_denylisted (kvs : List (String × Json)) :
    (normalize (.obj kvs)).get "create_organizations_limit" = none := by
  rw [normalize_obj_def]
  show getKey _ _ = none
  rw [getKey_mapArrayAt_ne _ (by decide), getKey_mapArrayAt_ne _ (by decide),
    getKey_mapArrayAt_ne _ (by decide), getKey_removeKey_self]

/-! ### Idempotence of the whole pass -/

theorem repairs_idem (l : List (String × Json)) :
    mapArrayAt (mapArrayAt (mapArrayAt
        (mapArrayAt (mapArrayAt (mapArrayAt l
              "email_addresses" fixEmailRecord)
            "saml_accounts" fixAccountRecord)
          "enterprise_accounts" fixAccountRecord)
        "email_addresses" fixEmailRecord)
      "saml_accounts" fixAccountRecord)
    "enterprise_accounts" fixAccountRecord
    = mapArrayAt (mapArrayAt (mapArrayAt l
          "email_addresses" fixEmailRecord)
        "saml_accounts" fixAccountRecord)
      "enterprise_accounts" fixAccountRecord := by
  rw [mapArrayAt_comm _
      (by decide : ("enterprise_accounts" : String) ≠ "email_addresses")
      fixAccountRecord fixEmailRecord]
  rw [mapArrayAt_comm _
      (by decide : ("saml_accounts" : String) ≠ "email_addresses")
      fixAccountRecord fixEmailRecord]
  rw [mapArrayAt_idem _ _ fixEmailRecord_idem]
  rw [mapArrayAt_comm _
      (by decide : ("enterprise_accounts" : String) ≠ "saml_accounts")
      fixAccountRecord fixAccountRecord]
  rw [mapArrayAt_idem _ _ fixAccountRecord_idem]
  rw [mapArrayAt_idem _ _ fixAccountRecord_idem]

/-- C1: normalization is idempotent — the denylist removal and the three
container repair loops, applied twice, give the document the single
application gives. -/
theorem normalize_idempotent (d : Json) : normalize (normalize d) = normalize d := by
  cases d with
  | obj kvs =>
    rw [normalize_obj_def kvs]
    rw [normalize_obj_def]
    congr 1
    rw [mapArrayAt_removeKey, mapArrayAt_removeKey, mapArrayAt_removeKey,
      removeKey_removeKey]
    exact repairs_idem (removeKey kvs "create_organizations_limit")
  | null => rfl
  | bool b => rfl
  | num n => rfl
  | str s => rfl
  | arr xs => rfl

/-! ### Frame lemmas for the record repairs -/

theorem fixEmailRecord_get_ne (r : Json) {k : String} (hk : k ≠ "verification") :
    (fixEmailRecord r).get k = r.get k := by
  cases r with
  | obj kvs =>
    cases hver : getKey kvs "verification" with
    | none => simp [fixEmailRecord, hver]
    | some v =>
      cases v with
      | obj vkvs =>
        by_cases htag :
            (getKey vkvs "object").bind Json.asStr = some "verification_saml"
        · simp [fixEmailRecord, hver, htag, Json.get, getKey_setKey_ne _ hk]
        · simp [fixEmailRecord, hver, htag]
      | null => simp [fixEmailRecord, hver]
      | bool b => simp [fixEmailRecord, hver]
      | num n => simp [fixEmailRecord, hver]
      | str s => simp [fixEmailRecord, hver]
      | arr xs => simp [fixEmailRecord, hver]
  | null => rfl
  | bool b => rfl
  | num n => rfl
  | str s => rfl
  | arr xs => rfl

theorem fixAccountRecord_get_ne (r : Json) {k : String} (hk : k ≠ "verification") :
    (fixAccountRecord r).get k = r.get k := by
  cases r with
  | obj kvs =>
    cases hver : getKey kvs "verification" with
    | none => simp [fixAccountRecord, hver]
    | some v =>
      cases v with
      | obj vkvs =>
        by_cases hurl : containsKey vkvs "external_verification_redirect_url"
        · simp [fixAccountRecord, hver, hurl]
        · simp [fixAccountRecord, hver, hurl, Json.get, getKey_setKey_ne _ hk]
      | null => simp [fixAccountRecord, hver]
      | bool b => simp [fixAccountRecord, hver]
      | num n => simp [fixAccountRecord, hver]
      | str s => simp [fixAccountRecord, hver]
      | arr xs => simp [fixAccountRecord, hver]
  | null => rfl
  | bool b => rfl
  | num n => rfl
  | str s => rfl
  | arr xs => rfl

theorem fixEmailRecord_verif_get (r : Json) {k : String}
    (hk : k ≠ "external_verification_redirect_url") :
    ((fixEmailRecord r).get "verification").bind (fun v => v.get k)
      = (r.get "verification").bind (fun v => v.get k) := by
  cases r with
  | obj kvs =>
    cases hver : getKey kvs "verification" with
    | none => simp [fixEmailRecord, hver]
    | some v =>
      cases v with
      | obj vkvs =>
        by_cases htag :
            (getKey vkvs "object").bind Json.asStr = some "verification_saml"
        · have hfix : fixEmailRecord (.obj kvs) =
              .obj (setKey kvs "verification"
                (.obj (removeKey vkvs "external_verification_redirect_url"))) := by
            simp [fixEmailRecord, hver, htag]
          rw [hfix]
          simp only [Json.get]
          rw [getKey_setKey_self kvs hver, hver]
          simp [Json.get, getKey_removeKey_ne _ hk]
        · simp [fixEmailRecord, hver, htag]
      | null => simp [fixEmailRecord, hver]
      | bool b => simp [fixEmailRecord, hver]
      | num n => simp [fixEmailRecord, hver]
      | str s => simp [fixEmailRecord, hver]
      | arr xs => simp [fixEmailRecord, hver]
  | null => rfl
  | bool b => rfl
  | num n => rfl
  | str s => rfl
  | arr xs => rfl

theorem fixAccountRecord_verif_get (r : Json) {k : String}
    (hk : k ≠ "external_verification_redirect_url") :
    ((fixAccountRecord r).get "verification").bind (fun v => v.get k)
      = (r.get "verification").bind (fun v => v.get k) := by
  cases r with
  | obj kvs =>
    cases hver : getKey kvs "verification" with
    | none => simp [fixAccountRecord, hver]
    | some v =>
      cases v with
      | obj vkvs =>
        by_cases hurl : containsKey vkvs "external_verification_redirect_url"
        · simp [fixAccountRecord, hver, hurl]
        · have hfix : fixAccountRecord (.obj kvs) =
              .obj (setKey kvs "verification"
                (.obj (vkvs ++ [("external_verification_redirect_url", Json.null)]))) := by
            simp [fixAccountRecord, hver, hurl]
          rw [hfix]
          simp only [Json.get]
          rw [getKey_setKey_self kvs hver, hver]
          simp [Json.get, getKey_append_ne _ hk]
      | null => simp [fixAccountRecord, hver]
      | bool b => simp [fixAccountRecord, hver]
      | num n => simp [fixAccountRecord, hver]
      | str s => simp [fixAccountRecord, hver]
      | arr xs => simp [fixAccountRecord, hver]
  | null => rfl
  | bool b => rfl
  | num n => rfl
  | str s => rfl
  | arr xs => rfl

theorem mapArr_of_not_arr {f : Json → Json} (v : Json)
    (h : ∀ xs, v ≠ .arr xs) : mapArr f v = v := by
  cases v with
  | arr xs => exact absurd rfl (h xs)
  | null => rfl
  | bool b => rfl
  | num n => rfl
  | str s => rfl
  | obj kvs => rfl

/-! ### Claim theorems -/

/-- C2, counterexample: a `saml_accounts` record whose `verification` has
no `object` field at all is still repaired — the null
`external_verification_redirect_url` is inserted, so the verification
sub-object is not left unchanged as the claim states. -/
theorem tag_gating_counterexample :
    normalize (Json.obj [("saml_accounts",
        Json.arr [Json.obj [("verification", Json.obj [])]])])
      = Json.obj [("saml_accounts", Json.arr [Json.obj [("verification",
          Json.obj [("external_verification_redirect_url", Json.null)])]])]
    ∧ normalize (Json.obj [("saml_accounts",
        Json.arr [Json.obj [("verification", Json.obj [])]])])
      ≠ Json.obj [("saml_accounts",
          Json.arr [Json.obj [("verification", Json.obj [])]])] := by
  refine ⟨rfl, fun h => ?_⟩
  rw [show normalize (Json.obj [("saml_accounts",
        Json.arr [Json.obj [("verification", Json.obj [])]])])
      = Json.obj [("saml_accounts", Json.arr [Json.obj [("verification",
          Json.obj [("external_verification_redirect_url", Json.null)])]])]
      from rfl] at h
  simp at h

/-- C2, amended: only the `email_addresses` repair is gated on the
`object` tag — a record whose verification's `object` is absent or not a
string is left unchanged there.  The `saml_accounts` /
`enterprise_accounts` repair never consults the tag: the null insertion
fires exactly when `external_verification_redirect_url` is absent, and the
record is unchanged when it is present. -/
theorem tag_gating_amended :
    (∀ rkvs vkvs, getKey rkvs "verification" = some (.obj vkvs) →
      (getKey vkvs "object").bind Json.asStr = none →
      fixEmailRecord (.obj rkvs) = .obj rkvs)
    ∧ (∀ rkvs vkvs, getKey rkvs "verification" = some (.obj vkvs) →
        (containsKey vkvs "external_verification_redirect_url" = false →
          fixAccountRecord (.obj rkvs) =
            .obj (setKey rkvs "verification"
              (.obj (vkvs ++ [("external_verification_redirect_url", Json.null)]))))
        ∧ (containsKey vkvs "external_verification_redirect_url" = true →
            fixAccountRecord (.obj rkvs) = .obj rkvs)) := by
  constructor
  · intro rkvs vkvs hver htag
    simp [fixEmailRecord, hver, htag]
  · intro rkvs vkvs hver
    constructor
    · intro hurl
      simp [fixAccountRecord, hver, hurl]
    · intro hurl
      simp [fixAccountRecord, hver, hurl]

/-- Witness for the amended C2 at a concrete record whose verification's
`object` field holds a number (not a string). -/
theorem tag_gating_amended_witness :
    fixEmailRecord (Json.obj [("verification",
        Json.obj [("object", Json.num 1)])]) =
      Json.obj [("verification", Json.obj [("object", Json.num 1)])]
    ∧ fixAccountRecord (Json.obj [("verification",
        Json.obj [("object", Json.num 1)])]) =
      Json.obj [("verification", Json.obj [("object", Json.num 1),
        ("external_verification_redirect_url", Json.null)])] := by
  constructor
  · exact tag_gating_amended.1 [("verification",
      Json.obj [("object", Json.num 1)])] [("object", Json.num 1)] rfl rfl
  · exact (tag_gating_amended.2 [("verification",
      Json.obj [("object", Json.num 1)])] [("object", Json.num 1)] rfl).1 rfl

/-- C5: after normalization the denylisted top-level key
`create_organizations_limit` is absent; when it was already absent the
denylist removal step leaves the entry list unchanged. -/
theorem denylist_removal (kvs : List (String × Json)) :
    (normalize (.obj kvs)).get "create_organizations_limit" = none
    ∧ (containsKey kvs "create_organizations_limit" = false →
        removeKey kvs "create_organizations_limit" = kvs) := by
  exact ⟨normalize_get_denylisted kvs, fun h => removeKey_of_not_contains kvs h⟩

/-- Witness for C5: the field present in one document and absent in
another. -/
theorem denylist_removal_witness :
    (normalize (Json.obj [("create_organizations_limit", Json.num 5),
        ("id", Json.str "user_1")])).get "create_organizations_limit" = none
    ∧ removeKey [("id", Json.str "user_1")] "create_organizations_limit" =
        [("id", Json.str "user_1")] := by
  exact ⟨(denylist_removal [("create_organizations_limit", Json.num 5),
      ("id", Json.str "user_1")]).1,
    (denylist_removal [("id", Json.str "user_1")]).2 rfl⟩

/-- C10: on a document whose top-level value is not an object,
normalization is a complete no-op. -/
theorem normalize_non_object (d : Json) (h : ∀ kvs, d ≠ .obj kvs) :
    normalize d = d := by
  cases d with
  | obj kvs => exact absurd rfl (h kvs)
  | null => rfl
  | bool b => rfl
  | num n => rfl
  | str s => rfl
  | arr xs => rfl

/-- Witness for C10 at a top-level array. -/
theorem normalize_non_object_witness :
    normalize (Json.arr [Json.num 1, Json.str "x"]) =
      Json.arr [Json.num 1, Json.str "x"] :=
  normalize_non_object (Json.arr [Json.num 1, Json.str "x"])
    (fun _ h => Json.noConfusion h)

/-- C3: in `saml_accounts` and `enterprise_accounts`, normalization maps
the repair over the records in order; a record whose verification lacks
`external_verification_redirect_url` gains it with value null (all other
verification entries kept), and a record whose verification already has
the key is left entirely unchanged. -/
theorem saml_enterprise_url_repair (key : String)
    (hkey : key = "saml_accounts" ∨ key = "enterprise_accounts") :
    (∀ kvs xs, getKey kvs key = some (.arr xs) →
      (normalize (.obj kvs)).get key = some (.arr (xs.map fixAccountRecord)))
    ∧ (∀ rkvs vkvs, getKey rkvs "verification" = some (.obj vkvs) →
        (containsKey vkvs "external_verification_redirect_url" = false →
          (fixAccountRecord (.obj rkvs)).get "verification" =
            some (.obj (vkvs ++ [("external_verification_redirect_url", Json.null)]))
          ∧ getKey (vkvs ++ [("external_verification_redirect_url", Json.null)])
              "external_verification_redirect_url" = some Json.null
          ∧ (∀ k, k ≠ "external_verification_redirect_url" →
              getKey (vkvs ++ [("external_verification_redirect_url", Json.null)]) k
                = getKey vkvs k))
        ∧ (containsKey vkvs "external_verification_redirect_url" = true →
            fixAccountRecord (.obj rkvs) = .obj rkvs)) := by
  constructor
  · intro kvs xs hx
    rcases hkey with h | h <;> subst h
    · rw [normalize_get_saml, hx]
      rfl
    · rw [normalize_get_enterprise, hx]
      rfl
  · intro rkvs vkvs hver
    constructor
    · intro hurl
      refine ⟨?_, getKey_append_self vkvs hurl Json.null,
        fun k hk => getKey_append_ne vkvs hk Json.null⟩
      have hfix : fixAccountRecord (.obj rkvs) =
          .obj (setKey rkvs "verification"
            (.obj (vkvs ++ [("external_verification_redirect_url", Json.null)]))) := by
        simp [fixAccountRecord, hver, hurl]
      rw [hfix]
      exact getKey_setKey_self rkvs hver _
    · intro hurl
      simp [fixAccountRecord, hver, hurl]

/-- Witness for C3: the spec's `saml_accounts` scenario — a record whose
verification holds only the tag gains the null redirect field — together
with an `enterprise_accounts` record that already carries the field and is
untouched. -/
theorem saml_enterprise_url_repair_witness :
    (normalize (Json.obj [("saml_accounts", Json.arr [Json.obj [("verification",
        Json.obj [("object", Json.str "verification_saml")])]])])).get
        "saml_accounts"
      = some (Json.arr ([Json.obj [("verification",
          Json.obj [("object", Json.str "verification_saml")])]].map
            fixAccountRecord))
    ∧ getKey ([("object", Json.str "verification_saml")] ++
        [("external_verification_redirect_url", Json.null)])
        "external_verification_redirect_url" = some Json.null
    ∧ fixAccountRecord (Json.obj [("verification", Json.obj
        [("external_verification_redirect_url", Json.str "https://y")])]) =
      Json.obj [("verification", Json.obj
        [("external_verification_redirect_url", Json.str "https://y")])] := by
  refine ⟨(saml_enterprise_url_repair "saml_accounts" (Or.inl rfl)).1
      [("saml_accounts", Json.arr [Json.obj [("verification",
        Json.obj [("object", Json.str "verification_saml")])]])]
      [Json.obj [("verification",
        Json.obj [("object", Json.str "verification_saml")])]] rfl, ?_, ?_⟩
  · exact (((saml_enterprise_url_repair "saml_accounts" (Or.inl rfl)).2
      [("verification", Json.obj [("object", Json.str "verification_saml")])]
      [("object", Json.str "verification_saml")] rfl).1 rfl).2.1
  · exact ((saml_enterprise_url_repair "enterprise_accounts" (Or.inr rfl)).2
      [("verification", Json.obj
        [("external_verification_redirect_url", Json.str "https://y")])]
      [("external_verification_redirect_url", Json.str "https://y")] rfl).2 rfl

/-- C4: in `email_addresses`, normalization maps the repair over the
records in order; a record whose verification is tagged
`"verification_saml"` and contains `external_verification_redirect_url`
loses that key from its verification object. -/
theorem email_saml_url_removal :
    (∀ kvs xs, getKey kvs "email_addresses" = some (.arr xs) →
      (normalize (.obj kvs)).get "email_addresses" =
        some (.arr (xs.map fixEmailRecord)))
    ∧ (∀ rkvs vkvs, getKey rkvs "verification" = some (.obj vkvs) →
        (getKey vkvs "object").bind Json.asStr = some "verification_saml" →
        containsKey vkvs "external_verification_redirect_url" = true →
        (fixEmailRecord (.obj rkvs)).get "verification" =
          some (.obj (removeKey vkvs "external_verification_redirect_url"))
        ∧ getKey (removeKey vkvs "external_verification_redirect_url")
            "external_verification_redirect_url" = none) := by
  constructor
  · intro kvs xs hx
    rw [normalize_get_email, hx]
    rfl
  · intro rkvs vkvs hver htag _
    refine ⟨?_, getKey_removeKey_self vkvs _⟩
    have hfix : fixEmailRecord (.obj rkvs) =
        .obj (setKey rkvs "verification"
          (.obj (removeKey vkvs "external_verification_redirect_url"))) := by
      simp [fixEmailRecord, hver, htag]
    rw [hfix]
    exact getKey_setKey_self rkvs hver _

/-- Witness for C4: the spec's scenario — a SAML-tagged email verification
carrying the redirect URL loses it. -/
theorem email_saml_url_removal_witness :
    (normalize (Json.obj [("create_organizations_limit", Json.num 5),
        ("email_addresses", Json.arr [Json.obj [("verification", Json.obj
          [("object", Json.str "verification_saml"),
           ("external_verification_redirect_url", Json.str "https://x")])]])])).get
        "email_addresses"
      = some (Json.arr ([Json.obj [("verification", Json.obj
          [("object", Json.str "verification_saml"),
           ("external_verification_redirect_url", Json.str "https://x")])]].map
            fixEmailRecord))
    ∧ getKey (removeKey [("object", Json.str "verification_saml"),
        ("external_verification_redirect_url", Json.str "https://x")]
        "external_verification_redirect_url")
        "external_verification_redirect_url" = none := by
  refine ⟨email_saml_url_removal.1
      [("create_organizations_limit", Json.num 5),
       ("email_addresses", Json.arr [Json.obj [("verification", Json.obj
          [("object", Json.str "verification_saml"),
           ("external_verification_redirect_url", Json.str "https://x")])]])]
      [Json.obj [("verification", Json.obj
          [("object", Json.str "verification_saml"),
           ("external_verification_redirect_url", Json.str "https://x")])]]
      rfl, ?_⟩
  exact (email_saml_url_removal.2
      [("verification", Json.obj
        [("object", Json.str "verification_saml"),
         ("external_verification_redirect_url", Json.str "https://x")])]
      [("object", Json.str "verification_saml"),
       ("external_verification_redirect_url", Json.str "https://x")]
      rfl rfl rfl).2

/-- C6: a strict-decode failure never makes the run fail — whenever the
bytes are obtained and the generic parse succeeds, the run returns
success for every strict decoder; conversely an aborting run means byte
acquisition failed or the generic parse failed. -/
theorem decode_failure_nonfatal {Text User : Type} (codec : JsonCodec Text)
    (dec : Text → Option User) (r : Option Text) :
    (∀ text doc, r = some text → codec.parse text = some doc →
      ∃ o, runPipeline codec dec r = .ok o)
    ∧ (∀ e, runPipeline codec dec r = .error e →
        r = none ∨ ∃ text, r = some text ∧ codec.parse text = none) := by
  constructor
  · intro text doc hr hparse
    subst hr
    cases hdec : dec (codec.serialize (normalize doc)) with
    | some u =>
      exact ⟨.decoded u, by simp [runPipeline, hparse, hdec]⟩
    | none =>
      refine ⟨.failed (match codec.parse (codec.serialize (normalize doc)) with
        | some v => topKeys v
        | none => []), ?_⟩
      simp [runPipeline, hparse, hdec]
  · intro e herr
    cases r with
    | none => exact Or.inl rfl
    | some text =>
      refine Or.inr ⟨text, rfl, ?_⟩
      cases hparse : codec.parse text with
      | none => rfl
      | some doc =>
        exfalso
        cases hdec : dec (codec.serialize (normalize doc)) with
        | some u => simp [runPipeline, hparse, hdec] at herr
        | none => simp [runPipeline, hparse, hdec] at herr

/-- Witness for C6: the always-failing decoder on a well-formed document
still yields a successful run. -/
theorem decode_failure_nonfatal_witness :
    ∃ o, runPipeline idCodec alwaysFail (some (Json.obj [("id", Json.str "u")]))
      = .ok o :=
  (decode_failure_nonfatal idCodec alwaysFail
      (some (Json.obj [("id", Json.str "u")]))).1
    (Json.obj [("id", Json.str "u")]) (Json.obj [("id", Json.str "u")]) rfl rfl

/-- C7: with a lossless codec (the round-trip contract `serde_json` gives
for `Value` trees), the field inventory reported on a strict-decode
failure is exactly the top-level key list of the normalized document. -/
theorem failure_fields_inventory {Text User : Type} (codec : JsonCodec Text)
    (hl : codec.Lossless) (dec : Text → Option User) (text : Text)
    (doc : Json) (fields : List String)
    (hparse : codec.parse text = some doc)
    (hrun : runPipeline codec dec (some text) = .ok (.failed fields)) :
    fields = topKeys (normalize doc) := by
  cases hdec : dec (codec.serialize (normalize doc)) with
  | some u =>
    simp [runPipeline, hparse, hdec] at hrun
  | none =>
    simp [runPipeline, hparse, hdec, hl (normalize doc)] at hrun
    exact hrun.symm

/-- Witness for C7: a run with the always-failing decoder reports exactly
the top-level keys of the normalized document. -/
theorem failure_fields_inventory_witness :
    ["id"] = topKeys (normalize (Json.obj [("id", Json.str "u")])) :=
  failure_fields_inventory idCodec (fun _ => rfl) alwaysFail
    (Json.obj [("id", Json.str "u")]) (Json.obj [("id", Json.str "u")])
    ["id"] rfl rfl

/-- C8: normalization touches nothing beyond the documented edits — every
top-level key other than the denylisted one and the three containers keeps
its value; each container array is mapped record-by-record (same length,
same order, no deduplication); a record repair changes no record key other
than `verification`, and inside `verification` no key other than
`external_verification_redirect_url`. -/
theorem normalization_frame (kvs : List (String × Json)) :
    (∀ k, k ≠ "create_organizations_limit" → k ≠ "email_addresses" →
      k ≠ "saml_accounts" → k ≠ "enterprise_accounts" →
      (normalize (.obj kvs)).get k = getKey kvs k)
    ∧ (∀ xs, getKey kvs "email_addresses" = some (.arr xs) →
        (normalize (.obj kvs)).get "email_addresses" =
          some (.arr (xs.map fixEmailRecord))
        ∧ (xs.map fixEmailRecord).length = xs.length)
    ∧ (∀ xs, getKey kvs "saml_accounts" = some (.arr xs) →
        (normalize (.obj kvs)).get "saml_accounts" =
          some (.arr (xs.map fixAccountRecord))
        ∧ (xs.map fixAccountRecord).length = xs.length)
    ∧ (∀ xs, getKey kvs "enterprise_accounts" = some (.arr xs) →
        (normalize (.obj kvs)).get "enterprise_accounts" =
          some (.arr (xs.map fixAccountRecord))
        ∧ (xs.map fixAccountRecord).length = xs.length)
    ∧ (∀ r k, k ≠ "verification" →
        (fixEmailRecord r).get k = r.get k ∧ (fixAccountRecord r).get k = r.get k)
    ∧ (∀ r k, k ≠ "external_verification_redirect_url" →
        ((fixEmailRecord r).get "verification").bind (fun v => v.get k)
          = (r.get "verification").bind (fun v => v.get k)
        ∧ ((fixAccountRecord r).get "verification").bind (fun v => v.get k)
          = (r.get "verification").bind (fun v => v.get k)) := by
  refine ⟨fun k h1 h2 h3 h4 => normalize_get_other kvs h1 h2 h3 h4,
    fun xs hx => ⟨?_, List.length_map xs fixEmailRecord⟩,
    fun xs hx => ⟨?_, List.length_map xs fixAccountRecord⟩,
    fun xs hx => ⟨?_, List.length_map xs fixAccountRecord⟩,
    fun r k hk => ⟨fixEmailRecord_get_ne r hk, fixAccountRecord_get_ne r hk⟩,
    fun r k hk => ⟨fixEmailRecord_verif_get r hk, fixAccountRecord_verif_get r hk⟩⟩
  · rw [normalize_get_email, hx]
    rfl
  · rw [normalize_get_saml, hx]
    rfl
  · rw [normalize_get_enterprise, hx]
    rfl

/-- Witness for C8 on a small document: the scalar field is untouched, the
container is mapped with its length kept, a verification's unrelated key
survives both repairs. -/
theorem normalization_frame_witness :
    (normalize (Json.obj [("id", Json.str "u"),
        ("email_addresses", Json.arr [])])).get "id" = some (Json.str "u")
    ∧ (normalize (Json.obj [("id", Json.str "u"),
        ("email_addresses", Json.arr [])])).get "email_addresses" =
        some (Json.arr (([] : List Json).map fixEmailRecord))
    ∧ (fixEmailRecord (Json.obj [("email_address", Json.str "a@b")])).get
        "email_address" = (Json.obj [("email_address", Json.str "a@b")]).get
        "email_address"
    ∧ ((fixAccountRecord (Json.obj [("verification", Json.obj
          [("object", Json.str "verification_saml")])])).get
          "verification").bind (fun v => v.get "object")
      = ((Json.obj [("verification", Json.obj
          [("object", Json.str "verification_saml")])]).get
          "verification").bind (fun v => v.get "object") := by
  refine ⟨(normalization_frame [("id", Json.str "u"),
        ("email_addresses", Json.arr [])]).1 "id"
      (by decide) (by decide) (by decide) (by decide), ?_, ?_, ?_⟩
  · exact ((normalization_frame [("id", Json.str "u"),
        ("email_addresses", Json.arr [])]).2.1 [] rfl).1
  · exact ((normalization_frame []).2.2.2.2.1
      (Json.obj [("email_address", Json.str "a@b")]) "email_address"
      (by decide)).1
  · exact ((normalization_frame []).2.2.2.2.2
      (Json.obj [("verification", Json.obj
        [("object", Json.str "verification_saml")])]) "object"
      (by decide)).2

/-- C9: normalization is a total function on document trees and treats
every shape mismatch as nothing-to-repair — a missing container stays
missing, a container present but not an array keeps its value untouched,
and a record without a verification object is returned unchanged by both
repairs. -/
theorem normalization_totality (kvs : List (String × Json)) (key : String)
    (hkey : key = "email_addresses" ∨ key = "saml_accounts" ∨
      key = "enterprise_accounts") :
    (getKey kvs key = none → (normalize (.obj kvs)).get key = none)
    ∧ (∀ v, getKey kvs key = some v → (∀ xs, v ≠ .arr xs) →
        (normalize (.obj kvs)).get key = some v)
    ∧ (∀ r, (∀ vkvs, r.get "verification" ≠ some (.obj vkvs)) →
        fixEmailRecord r = r ∧ fixAccountRecord r = r) := by
  refine ⟨?_, ?_, ?_⟩
  · intro h
    rcases hkey with h1 | h1 | h1 <;> subst h1
    · rw [normalize_get_email, h]
      rfl
    · rw [normalize_get_saml, h]
      rfl
    · rw [normalize_get_enterprise, h]
      rfl
  · intro v hv hnarr
    rcases hkey with h1 | h1 | h1 <;> subst h1
    · rw [normalize_get_email, hv]
      simp [mapArr_of_not_arr v hnarr]
    · rw [normalize_get_saml, hv]
      simp [mapArr_of_not_arr v hnarr]
    · rw [normalize_get_enterprise, hv]
      simp [mapArr_of_not_arr v hnarr]
  · intro r hno
    cases r with
    | obj rkvs =>
      cases hver : getKey rkvs "verification" with
      | none => constructor <;> simp [fixEmailRecord, fixAccountRecord, hver]
      | some v =>
        cases v with
        | obj vkvs =>
          exact absurd (show (Json.obj rkvs).get "verification" =
            some (.obj vkvs) from hver) (hno vkvs)
        | null => constructor <;> simp [fixEmailRecord, fixAccountRecord, hver]
        | bool b => constructor <;> simp [fixEmailRecord, fixAccountRecord, hver]
        | num n => constructor <;> simp [fixEmailRecord, fixAccountRecord, hver]
        | str s => constructor <;> simp [fixEmailRecord, fixAccountRecord, hver]
        | arr xs => constructor <;> simp [fixEmailRecord, fixAccountRecord, hver]
    | null => exact ⟨rfl, rfl⟩
    | bool b => exact ⟨rfl, rfl⟩
    | num n => exact ⟨rfl, rfl⟩
    | str s => exact ⟨rfl, rfl⟩
    | arr xs => exact ⟨rfl, rfl⟩

/-- Witness for C9: a non-array `saml_accounts` value is untouched, and a
record whose verification is a string is unchanged by both repairs. -/
theorem normalization_totality_witness :
    (normalize (Json.obj [("saml_accounts", Json.str "oops")])).get
        "saml_accounts" = some (Json.str "oops")
    ∧ (fixEmailRecord (Json.obj [("verification", Json.str "v")]) =
        Json.obj [("verification", Json.str "v")]
      ∧ fixAccountRecord (Json.obj [("verification", Json.str "v")]) =
        Json.obj [("verification", Json.str "v")]) := by
  constructor
  · exact (normalization_totality [("saml_accounts", Json.str "oops")]
      "saml_accounts" (Or.inr (Or.inl rfl))).2.1 (Json.str "oops") rfl
      (fun xs h => Json.noConfusion h)
  · exact (normalization_totality [] "email_addresses" (Or.inl rfl)).2.2
      (Json.obj [("verification", Json.str "v")])
      (fun vkvs h => by simp [Json.get, getKey] at h)

end ParseUser
